import Mathlib

/-!
Verification development for the dbt project generator
(`src/dbt_automation/dbt_project_generator.py`, `schema_reader.py`,
`schema_generator.py`).  The Python code is shallowly embedded: YAML/CSV
records become Lean structures, the in-place dictionary mutations become
pure functions on those structures, and the file system touched by a
generation run becomes an association list from structured paths to file
contents.  Every definition is translated from the source code; the
theorems at the end of the file settle the specification claims.
-/

/-- Replace the first element of a list satisfying `p` by its image under
`f`, leaving everything else unchanged.  This models Python's pattern of
scanning a list for the first matching dictionary and mutating it in
place (as `generate_external_tables` does with the `sources[]` entry). -/
def updateFirst (p : α → Bool) (f : α → α) : List α → List α
  | [] => []
  | x :: xs => if p x then f x :: xs else x :: updateFirst p f xs

/-- Python's `str.lower()` as the generator uses it
(`value.lower() == 'true'` on ASCII flag strings), written over the
character list so that it evaluates by kernel reduction. -/
def pyLower (s : String) : String :=
  String.mk (s.data.map Char.toLower)

/-- Python's `str.strip()`: leading and trailing whitespace removed. -/
def pyStrip (s : String) : String :=
  String.mk (((s.data.dropWhile Char.isWhitespace).reverse.dropWhile
    Char.isWhitespace).reverse)

/-- Splitting a grouping key such as `models/marts/facts` into path
segments (`pathlib` treats the embedded slashes of a joined component as
separators). -/
def splitSlashAux : List Char → List Char → List String
  | [], cur => [String.mk cur.reverse]
  | c :: cs, cur =>
    if c = '/' then String.mk cur.reverse :: splitSlashAux cs []
    else splitSlashAux cs (c :: cur)

/-- `splitSlashAux` over a whole string. -/
def splitSlash (s : String) : List String :=
  splitSlashAux s.data []

/-- A scalar cell value as read from a CSV by pandas: a native boolean, a
string, or some other (non-boolean, non-string) value such as an integer.
`vInt` stands in for every value that is neither `bool` nor `str`; the
only thing the code ever does with such a value is test its Python
truthiness, which for an integer is "nonzero". -/
inductive CellVal where
  | vBool (b : Bool)
  | vStr (s : String)
  | vInt (n : Int)
deriving DecidableEq, Repr

/-- Python truthiness of a `CellVal` (`if is_pk:` on an uncoerced value). -/
def CellVal.truthy : CellVal → Bool
  | .vBool b => b
  | .vStr s => s ≠ ""
  | .vInt n => n ≠ 0

/-- One row of the schema-definitions catalog
(`schema_definitions.csv`), as consumed by
`DBTProjectGenerator.generate_external_tables` (lines 148-178) and by
`SchemaReader._parse_column_definition` (lines 52-72).  `none` in an
`Option` field means the cell is absent/null (pandas `NaN` filtered by
`pd.notnull`, or the column missing from the file). -/
structure SchemaDefRow where
  schema_name : String
  table_name : String
  column_name : String
  data_type : String
  description : Option String
  expression : Option String
  is_primary_key : Option CellVal
  is_nullable : Option CellVal
  is_unique : Option CellVal
  default_value : Option String
deriving DecidableEq, Repr

/-- The boolean coercion inlined in `generate_external_tables`
(lines 164-171):

    is_pk = scol.get('is_primary_key', False)
    if isinstance(is_pk, str):
        is_pk = is_pk.lower() == 'true'
    ...
    if is_pk: ...

A missing column yields the default; a string is compared (lowercased)
against `"true"`; a native boolean is used as is; any other value is kept
unconverted and later used under Python truthiness. -/
def coerceFlag (v : Option CellVal) (default : Bool) : Bool :=
  match v with
  | none => default
  | some (.vBool b) => b
  | some (.vStr s) => pyLower s == "true"
  | some (.vInt n) => CellVal.truthy (.vInt n)

/-- `SchemaReader._parse_column_definition.parse_boolean` (lines 55-61):
native booleans pass through, strings are lowercased and compared with
`"true"`, anything else yields the default. -/
def parse_boolean (v : CellVal) (default : Bool) : Bool :=
  match v with
  | .vBool b => b
  | .vStr s => pyLower s == "true"
  | _ => default

/-- A column entry of the generated `sources.yml` (the `col_dict` built in
`generate_external_tables`).  `Option` fields model keys that are only
present on some dictionaries. -/
structure ColumnDescriptor where
  name : String
  data_type : String
  description : Option String
  quote : Option Bool
  aliasName : Option String
  expression : Option String
  tests : Option (List String)
deriving DecidableEq, Repr

/-- A column spec of a mapping-document model entry (`col` in lines
132-144; also the column dictionaries consumed by
`SchemaGenerator._generate_column_schema`). -/
structure MappingColumn where
  name : String
  data_type : Option String
  description : Option String
  quote : Option Bool
  aliasName : Option String
  expression : Option String
  transformation : Option String
deriving DecidableEq, Repr

/-- One entry of the mapping document's `staging_models` or `models`
list.  `name` is required by the data model; the remaining keys are
optional and read with defaults at each use site. -/
structure ModelMapping where
  name : String
  type : Option String
  mart_type : Option String
  source_table : Option String
  columns : List MappingColumn
  description : Option String
  expected_behavior : Option String
deriving DecidableEq, Repr

/-- The parsed mapping document: top-level `staging_models` and `models`
lists. -/
structure MappingDoc where
  staging_models : List ModelMapping
  models : List ModelMapping
deriving DecidableEq, Repr

/-- `col_dict` built from a mapping-document column (lines 133-144):
`name` is required, `data_type`/`description` default to the empty
string, and `quote`/`alias`/`expression` are copied only when the key is
present. -/
def colFromMapping (c : MappingColumn) : ColumnDescriptor :=
  { name := c.name
    data_type := c.data_type.getD ""
    description := some (c.description.getD "")
    quote := c.quote
    aliasName := c.aliasName
    expression := c.expression
    tests := none }

/-- Lines 154-158: attach `description` only when present and non-blank
(stripped). -/
def applyDescription (descr : Option String) (d : ColumnDescriptor) : ColumnDescriptor :=
  match descr with
  | some s => if pyStrip s ≠ "" then { d with description := some (pyStrip s) } else d
  | none => d

/-- Lines 159-162: attach `expression` only when present and non-blank
(stripped). -/
def applyExpression (expr : Option String) (d : ColumnDescriptor) : ColumnDescriptor :=
  match expr with
  | some s => if pyStrip s ≠ "" then { d with expression := some (pyStrip s) } else d
  | none => d

/-- `col_dict` built from a schema-definitions row (lines 150-178):
`description`/`expression` attached only when present and non-blank, and
`tests` attached only when non-empty, being `[unique, not_null]` for a
primary key, `[not_null]` for a non-nullable column, and nothing
otherwise. -/
def colFromSchemaRow (r : SchemaDefRow) : ColumnDescriptor :=
  let d0 : ColumnDescriptor :=
    { name := r.column_name, data_type := r.data_type, description := none,
      quote := none, aliasName := none, expression := none, tests := none }
  let d2 := applyExpression r.expression (applyDescription r.description d0)
  let is_pk := coerceFlag r.is_primary_key false
  let is_nullable := coerceFlag r.is_nullable true
  let tests : List String :=
    if is_pk then ["unique", "not_null"]
    else if is_nullable = false then ["not_null"]
    else []
  if tests ≠ [] then { d2 with tests := some tests } else d2

/-- The scan of `mapping['staging_models']` (lines 130-146): the first
entry whose `name` equals `"stg_" + table_name` or whose `source_table`
equals `table_name`. -/
def findStg (stgs : List ModelMapping) (table_name : String) : Option ModelMapping :=
  stgs.find? (fun stg =>
    stg.name == "stg_" ++ table_name || stg.source_table == some table_name)

/-- Column resolution for one catalog table (lines 123-178): prefer the
matching mapping-document entry's columns; if that leaves `columns`
empty and the schema-definitions catalog is loaded, fall back to the
catalog rows with matching `(schema_name, table_name)`. -/
def resolveColumns (mdoc : Option MappingDoc) (sdf : Option (List SchemaDefRow))
    (schema table_name : String) : List ColumnDescriptor :=
  let columns : List ColumnDescriptor :=
    match mdoc with
    | some m =>
      match findStg m.staging_models table_name with
      | some stg => stg.columns.map colFromMapping
      | none => []
    | none => []
  if columns.isEmpty then
    match sdf with
    | some df =>
      (df.filter (fun r => r.schema_name == schema && r.table_name == table_name)).map
        colFromSchemaRow
    | none => columns
  else columns

/-- The `external:` sub-dictionary of a source table entry
(lines 109-121). -/
structure ExternalSpec where
  location : String
  file_format : String
  partitions : Option (List (String × String))
  cluster_by : Option (List String)
  refresh_frequency : Option String
deriving DecidableEq, Repr

/-- `table_dict` (lines 106-180): one external-table descriptor of a
`sources.yml` document. -/
structure SourceTable where
  name : String
  description : String
  external : ExternalSpec
  columns : Option (List ColumnDescriptor)
deriving DecidableEq, Repr

/-- One `sources[]` entry: `{name: schema, description, tables}` (line
201). -/
structure SourceEntry where
  name : String
  description : String
  tables : List SourceTable
deriving DecidableEq, Repr

/-- A parsed `sources.yml` document: `{version: 2, sources: []}` (line
192). -/
structure SourceDoc where
  version : Nat
  sources : List SourceEntry
deriving DecidableEq, Repr

/-- One row of the source-table catalog CSV (`df.iterrows()` in
`generate_external_tables`).  `none` means the column is absent from the
file, in which case `row.get` supplies the documented default. -/
structure CatalogRow where
  table_name : String
  source_database : Option String
  source_schema : Option String
  description : Option String
  location : Option String
  file_format : Option String
  partition_by : Option String
  cluster_by : Option String
  refresh_frequency : Option String
deriving DecidableEq, Repr

/-- `table_dict` construction (lines 94-121 and 179-180): every field is
stringified and stripped; `partitions` (with fixed data type `date`),
`cluster_by` (a one-element list), `refresh_frequency` and `columns` are
attached only when non-empty. -/
def buildTableDict (row : CatalogRow) (cols : List ColumnDescriptor) : SourceTable :=
  let table_name := pyStrip row.table_name
  let description := pyStrip (row.description.getD "")
  let location := pyStrip (row.location.getD "")
  let file_format := pyStrip (row.file_format.getD "")
  let partition_by := pyStrip (row.partition_by.getD "")
  let cluster_by := pyStrip (row.cluster_by.getD "")
  let refresh_frequency := pyStrip (row.refresh_frequency.getD "")
  { name := table_name
    description := description
    external :=
      { location := location
        file_format := file_format
        partitions := if partition_by ≠ "" then some [(partition_by, "date")] else none
        cluster_by := if cluster_by ≠ "" then some [cluster_by] else none
        refresh_frequency := if refresh_frequency ≠ "" then some refresh_frequency else none }
    columns := if cols ≠ [] then some cols else none }

/-- The merge of one freshly built table descriptor into a sources
document (lines 194-207): locate the first `sources[]` entry named after
the schema (creating `{name, description, tables: []}` at the end if
none exists), drop every table entry carrying the merged table's name,
and append the new descriptor.  The generator always sets
`table_dict['name'] = table_name` (line 107), so the removal key of line
206 coincides with `td.name`. -/
def mergeTable (doc : SourceDoc) (schema : String) (td : SourceTable) : SourceDoc :=
  match doc.sources.find? (fun s => s.name == schema) with
  | some _ =>
    { doc with
      sources := updateFirst (fun s => s.name == schema)
        (fun s => { s with tables := s.tables.filter (fun t => !(t.name == td.name)) ++ [td] })
        doc.sources }
  | none =>
    { doc with
      sources := doc.sources ++
        [{ name := schema
           description := "External tables in " ++ schema ++ " schema"
           tables := ([] : List SourceTable).filter (fun t => !(t.name == td.name)) ++ [td] }] }

/-- `SchemaGenerator._generate_column_schema` output (lines 55-71): name
plus description, the description suffixed with the transformation note
when a non-empty `transformation` is present.  (The function returns at
line 71; the test-emission code below that return is unreachable.) -/
structure SchemaColumnOut where
  name : String
  description : String
deriving DecidableEq, Repr

/-- `SchemaGenerator._generate_model_schema` output (lines 31-53). -/
structure SchemaModelOut where
  name : String
  description : String
  contract_enforced : Bool
  columns : List SchemaColumnOut
deriving DecidableEq, Repr

/-- A generated `schema.yml` document: `{version: 2, models: [...]}`. -/
structure SchemaDoc where
  version : Nat
  models : List SchemaModelOut
deriving DecidableEq, Repr

/-- `SchemaGenerator._generate_column_schema` (lines 55-71). -/
def genColumnSchema (c : MappingColumn) : SchemaColumnOut :=
  let column_name := c.name
  let description := c.description.getD ("Column " ++ column_name)
  let transformation := c.transformation.getD ""
  { name := column_name
    description :=
      if transformation ≠ "" then
        description ++ " (Transformation: " ++ transformation ++ ")"
      else description }

/-- `SchemaGenerator._generate_model_schema` (lines 31-53). -/
def genModelSchema (m : ModelMapping) : SchemaModelOut :=
  { name := m.name
    description := m.description.getD ("Model for " ++ m.name)
    contract_enforced := true
    columns := m.columns.map genColumnSchema }

/-- `SchemaGenerator.generate_schema_yml` (lines 18-29), kept as the
structured document rather than its YAML rendering. -/
def schemaDocOf (group : List ModelMapping) : SchemaDoc :=
  { version := 2, models := group.map genModelSchema }

/-- The grouping key of `generate_schema_files` (lines 334-342):
`models/<type>` normally, `models/marts/<mart_type>` when the type is
`marts`; `type` defaults to `marts` and `mart_type` to `dimensions`. -/
def groupKey (m : ModelMapping) : String :=
  let model_type := m.type.getD "marts"
  let mart_type := m.mart_type.getD "dimensions"
  if model_type == "marts" then "models/" ++ model_type ++ "/" ++ mart_type
  else "models/" ++ model_type

/-- One step of the `model_groups` dictionary construction (lines
344-347): append to the existing group, or create a new one at the end
(Python dictionaries preserve insertion order). -/
def insertGroup (gs : List (String × List ModelMapping)) (k : String) (m : ModelMapping) :
    List (String × List ModelMapping) :=
  if gs.any (fun g => g.1 == k) then
    updateFirst (fun g => g.1 == k) (fun g => (g.1, g.2 ++ [m])) gs
  else gs ++ [(k, [m])]

/-- The `model_groups` dictionary of `generate_schema_files` (lines
331-347), built over the mapping document's `models` list only. -/
def groupModels (ms : List ModelMapping) : List (String × List ModelMapping) :=
  ms.foldl (fun gs m => insertGroup gs (groupKey m) m) []

/-- A file path inside the generated project, split into directory
segments, a file stem and an extension; every file the generator writes
has the shape `dir.../stem.ext`. -/
structure GenPath where
  dir : List String
  stem : String
  ext : String
deriving DecidableEq, Repr

/-- The `schema.yml` path of a model group (line 353):
`<group_key>/schema.yml`. -/
def schemaPath (key : String) : GenPath :=
  { dir := splitSlash key, stem := "schema", ext := "yml" }

/-- The schema files written by `generate_schema_files` (lines 350-359):
one per group, in group-creation order. -/
def schemaFilesList (ms : List ModelMapping) : List (GenPath × SchemaDoc) :=
  (groupModels ms).map (fun kg => (schemaPath kg.1, schemaDocOf kg.2))

/-- A column as parsed by `SchemaReader._parse_column_definition`
(lines 52-103).  The dbt test payload dictionaries the parser also
builds (severity configs and templated SQL expressions) are carried by
no claim and are omitted here; only the fields the validator and the
claims read are kept. -/
structure ParsedColumn where
  name : String
  type : String
  description : String
  required : Bool
  primary_key : Bool
  uniqueFlag : Bool
  default_value : String
deriving DecidableEq, Repr

/-- `SchemaReader._parse_column_definition` (lines 52-72) on a
schema-definitions row. -/
def parseColumnDefinition (r : SchemaDefRow) : ParsedColumn :=
  { name := r.column_name
    type := r.data_type
    description := r.description.getD ""
    required := !(parse_boolean (r.is_nullable.getD (.vBool true)) true)
    primary_key := parse_boolean (r.is_primary_key.getD (.vBool false)) false
    uniqueFlag := parse_boolean (r.is_unique.getD (.vBool false)) false
    default_value := r.default_value.getD "" }

/-- One value of the `SchemaReader.schema_definitions` dictionary: the
rows of one `(schema_name, table_name)` group with their parsed
columns (lines 32-43). -/
structure SchemaTable where
  schema_name : String
  table_name : String
  columns : List ParsedColumn
deriving DecidableEq, Repr

/-- The dictionary key `f"{schema_name}.{table_name}"` (line 32). -/
def tkey (t : SchemaTable) : String :=
  t.schema_name ++ "." ++ t.table_name

/-- One issue reported by `SchemaReader.validate_schema`. -/
inductive Issue where
  | dupColumns (table_key : String) (dups : List String)
  | missingName (table_key : String)
  | missingType (table_key : String) (column_name : String)
deriving DecidableEq, Repr

/-- `SchemaReader.validate_schema` (lines 227-247): first one duplicate
report per table whose column names repeat, then, per column, a missing
name and/or a missing type report.  Python iterates the duplicate names
as a `set`, whose order is unspecified; here they are fixed in a
deterministic order, which no claim depends on. -/
def validateSchema (tables : List SchemaTable) : List Issue :=
  (tables.filterMap (fun t =>
    let column_names := t.columns.map (fun c => c.name)
    let dups := column_names.dedup.filter (fun n => 1 < column_names.count n)
    if dups ≠ [] then some (Issue.dupColumns (tkey t) dups) else none)) ++
  tables.flatMap (fun t =>
    t.columns.flatMap (fun c =>
      (if c.name == "" then [Issue.missingName (tkey t)] else []) ++
      (if c.type == "" then [Issue.missingType (tkey t) c.name] else [])))

/-- `DBTProjectGenerator.generate_schema_files` (lines 317-368) as a pure
function: the schema documents are generated from the mapping document's
`models` list (lines 331-359) and only then is `validate_schema` run over
the schema definitions, its issues logged as warnings (lines 361-368). -/
def generate_schema_files (defs : List SchemaTable) (ms : List ModelMapping) :
    List (GenPath × SchemaDoc) × List Issue :=
  (schemaFilesList ms, validateSchema defs)

/-- Python's `str.splitlines` restricted to the `\n` separator (the only
separator occurring in the generator's content): `""` has no lines, and a
trailing `\n` opens no further line. -/
def splitlinesAux : List Char → List Char → List String
  | [], cur => if cur.isEmpty then [] else [String.mk cur.reverse]
  | c :: cs, cur =>
    if c = '\n' then String.mk cur.reverse :: splitlinesAux cs []
    else splitlinesAux cs (c :: cur)

/-- `text.splitlines()` on `\n`-separated text. -/
def pySplitlines (s : String) : List String :=
  splitlinesAux s.data []

/-- Python's `'\n'.join(lines)`. -/
def joinNL : List String → String
  | [] => ""
  | [a] => a
  | a :: b :: rest => a ++ "\n" ++ joinNL (b :: rest)

/-- The `commented_sql` string of `generate_models_from_mapping`
(line 311): every checklist line and every SQL line prefixed with the
comment marker, the two blocks joined by one newline. -/
def commentedFile (tester_comment sql_code : String) : String :=
  joinNL ((pySplitlines tester_comment).map (fun line => "-- " ++ line)) ++ "\n" ++
  joinNL ((pySplitlines sql_code).map (fun line => "-- " ++ line))

/-- A file written during a generation run: either raw text, or one of
the two structured YAML documents (kept structured instead of rendered,
since every claim is about the document contents). -/
inductive GenFile where
  | text (s : String)
  | sourceDoc (d : SourceDoc)
  | schemaDoc (d : SchemaDoc)
deriving DecidableEq, Repr

/-- The project tree as an association list from paths to contents;
`fsWrite` overwrites in place or appends, as `open(path, 'w')` does. -/
abbrev FS := List (GenPath × GenFile)

/-- Write (create or overwrite) one file. -/
def fsWrite (fs : FS) (p : GenPath) (c : GenFile) : FS :=
  if fs.any (fun e => e.1 == p) then
    updateFirst (fun e => e.1 == p) (fun e => (e.1, c)) fs
  else fs ++ [(p, c)]

/-- Read one file. -/
def fsGet (fs : FS) (p : GenPath) : Option GenFile :=
  (fs.find? (fun e => e.1 == p)).map (fun e => e.2)

/-- `Path.exists()`. -/
def fsExists (fs : FS) (p : GenPath) : Bool :=
  (fsGet fs p).isSome

/-- Loading an existing `sources.yml` before the merge (lines 187-192): a
present source document is reused, anything else starts the fresh
skeleton `{version: 2, sources: []}`. -/
def readSourceDoc (fs : FS) (p : GenPath) : SourceDoc :=
  match fsGet fs p with
  | some (.sourceDoc d) => d
  | _ => { version := 2, sources := [] }

/-- One iteration of the row loop of `generate_external_tables`
(lines 93-220): defaults and stripping for the identifying fields, column
resolution, descriptor construction, read-merge-write of the per-
`(database, schema)` sources document at
`models/<database>/<schema>/sources.yml`.  The trailing `yamllint`
subprocess (lines 223-231) only prints and is dropped. -/
def processRow (mdoc : Option MappingDoc) (sdf : Option (List SchemaDefRow))
    (fs : FS) (row : CatalogRow) : FS :=
  let database := pyStrip (row.source_database.getD "default")
  let schema := pyStrip (row.source_schema.getD "public")
  let table_name := pyStrip row.table_name
  let cols := resolveColumns mdoc sdf schema table_name
  let td := buildTableDict row cols
  let p : GenPath := { dir := ["models", database, schema], stem := "sources", ext := "yml" }
  fsWrite fs p (.sourceDoc (mergeTable (readSourceDoc fs p) schema td))

/-- `generate_external_tables` over the whole catalog. -/
def sourcesPhase (mdoc : Option MappingDoc) (sdf : Option (List SchemaDefRow))
    (fs : FS) (rows : List CatalogRow) : FS :=
  rows.foldl (processRow mdoc sdf) fs

/-- The model file path of `generate_models_from_mapping` (lines
272-279): `models/marts/<name>.sql` for every marts model (no
`mart_type` segment), `models/<type>/<name>.sql` otherwise, the type
defaulting to `staging` here. -/
def bodyModelPath (m : ModelMapping) : GenPath :=
  let model_type := m.type.getD "staging"
  if model_type == "marts" then { dir := ["models", "marts"], stem := m.name, ext := "sql" }
  else { dir := ["models", model_type], stem := m.name, ext := "sql" }

/-- The request-audit log path (line 298). -/
def logPath (m : ModelMapping) : GenPath :=
  { dir := ["logs"], stem := "model_generation_" ++ m.name, ext := "log" }

/-- One iteration of `generate_models_from_mapping` (lines 270-315).  The
text-generation collaborator is an oracle: `llmSql`/`llmCheck` give the
SQL body and the checklist for an entry, `logRender` the audit-log text.
The final `sqlfluff_formatter.format_sql(str(model_path))` call receives
the path string as SQL text, formats a temp copy of it, and discards the
result (`SQLFluffFormatter.format_sql` never rewrites its argument
file), so the model file keeps the commented content written here. -/
def bodyStep (llmSql llmCheck logRender : ModelMapping → String)
    (fs : FS) (m : ModelMapping) : FS :=
  let sql_code := llmSql m
  let tester_comment := llmCheck m
  let fs1 := fsWrite fs (logPath m) (.text (logRender m))
  fsWrite fs1 (bodyModelPath m) (.text (commentedFile tester_comment sql_code))

/-- `generate_models_from_mapping` (lines 264-315): the staging entries
concatenated with the general entries, staging first (line 269). -/
def bodyPhase (llmSql llmCheck logRender : ModelMapping → String)
    (fs : FS) (mdoc : MappingDoc) : FS :=
  (mdoc.staging_models ++ mdoc.models).foldl (bodyStep llmSql llmCheck logRender) fs

/-- The file writes of `generate_schema_files` (lines 350-359). -/
def schemaPhase (fs : FS) (mdoc : MappingDoc) : FS :=
  (schemaFilesList mdoc.models).foldl (fun fs pd => fsWrite fs pd.1 (.schemaDoc pd.2)) fs

/-- The model path probed by `generate_unit_tests` (lines 385-391):
`models/<type>/<mart_type>/<name>.sql` for marts models (type defaulting
to `marts`, mart_type to `dimensions`), `models/<type>/<name>.sql`
otherwise. -/
def testLookupPath (m : ModelMapping) : GenPath :=
  let model_type := m.type.getD "marts"
  let mart_type := m.mart_type.getD "dimensions"
  if model_type == "marts" then
    { dir := ["models", model_type, mart_type], stem := m.name, ext := "sql" }
  else { dir := ["models", model_type], stem := m.name, ext := "sql" }

/-- One iteration of `generate_unit_tests` (lines 377-414): skip entries
without a name, skip entries whose model file is missing, otherwise ask
the collaborator for test code (an oracle over the entry and the model
file contents) and write `tests/test_<name>.sql`. -/
def testStep (llmTest : ModelMapping → GenFile → String) (fs : FS) (m : ModelMapping) : FS :=
  if m.name == "" then fs
  else
    match fsGet fs (testLookupPath m) with
    | none => fs
    | some model_code =>
      fsWrite fs { dir := ["tests"], stem := "test_" ++ m.name, ext := "sql" }
        (.text (llmTest m model_code))

/-- `generate_unit_tests` (lines 370-414): over the mapping document's
`models` list only. -/
def testPhase (llmTest : ModelMapping → GenFile → String) (fs : FS) (mdoc : MappingDoc) : FS :=
  mdoc.models.foldl (testStep llmTest) fs

/-- The project state after the first four phases of
`run_full_generation` (lines 416-436): directory creation (which writes
no files), external-table generation, model-body generation, and schema
generation, starting from an empty project tree. -/
def preTestState (llmSql llmCheck logRender : ModelMapping → String)
    (mdoc : MappingDoc) (catalog : List CatalogRow)
    (sdf : Option (List SchemaDefRow)) : FS :=
  schemaPhase
    (bodyPhase llmSql llmCheck logRender
      (sourcesPhase (some mdoc) sdf ([] : FS) catalog) mdoc)
    mdoc

/-- A complete `run_full_generation` (lines 416-438). -/
def fullRun (llmSql llmCheck logRender : ModelMapping → String)
    (llmTest : ModelMapping → GenFile → String)
    (mdoc : MappingDoc) (catalog : List CatalogRow)
    (sdf : Option (List SchemaDefRow)) : FS :=
  testPhase llmTest (preTestState llmSql llmCheck logRender mdoc catalog sdf) mdoc

/-! ### Concrete inputs used by the claim theorems and witnesses -/

/-- The table-list mutation of lines 205-207, as applied to one
`sources[]` entry. -/
def mergeEntryTables (td : SourceTable) (s : SourceEntry) : SourceEntry :=
  { s with tables := s.tables.filter (fun t => !(t.name == td.name)) ++ [td] }

/-- Concrete sources document for exercising the sibling-preservation
merge: one schema entry already holding table `customers`. -/
def c2TableA : SourceTable :=
  { name := "customers"
    description := "customer master"
    external :=
      { location := "s3://bucket/raw/customers/"
        file_format := "csv"
        partitions := none
        cluster_by := none
        refresh_frequency := none }
    columns := none }

/-- Concrete descriptor for table `orders`, merged next to `customers`. -/
def c2TableB : SourceTable :=
  { name := "orders"
    description := "order facts"
    external :=
      { location := "s3://bucket/raw/orders/"
        file_format := "parquet"
        partitions := some [("order_date", "date")]
        cluster_by := none
        refresh_frequency := none }
    columns := none }

/-- Concrete schema entry holding only `c2TableA`. -/
def c2EntryA : SourceEntry :=
  { name := "public", description := "d", tables := [c2TableA] }

/-- Concrete document containing only `c2TableA` under schema `public`. -/
def c2Doc : SourceDoc :=
  { version := 2, sources := [c2EntryA] }

/-- Concrete primary-key catalog row. -/
def c4RowPk : SchemaDefRow :=
  { schema_name := "raw_data", table_name := "customers", column_name := "id"
    data_type := "bigint", description := none, expression := none
    is_primary_key := some (.vStr "true"), is_nullable := some (.vBool true)
    is_unique := none, default_value := none }

/-- Catalog row whose `is_nullable` cell holds the string `"yes"`. -/
def c5Row : SchemaDefRow :=
  { schema_name := "public", table_name := "t", column_name := "c"
    data_type := "string", description := none, expression := none
    is_primary_key := none, is_nullable := some (.vStr "yes")
    is_unique := none, default_value := none }

/-- Staging entry matching table `orders` but carrying no columns. -/
def c3Stg : ModelMapping :=
  { name := "stg_orders", type := none, mart_type := none, source_table := none
    columns := [], description := none, expected_behavior := none }

/-- Mapping document holding only `c3Stg`. -/
def c3MappingDoc : MappingDoc :=
  { staging_models := [c3Stg], models := [] }

/-- Catalog row for `public.orders`. -/
def c3Row : SchemaDefRow :=
  { schema_name := "public", table_name := "orders", column_name := "id"
    data_type := "bigint", description := none, expression := none
    is_primary_key := some (.vBool true), is_nullable := none
    is_unique := none, default_value := none }

/-- Staging entry for `orders` carrying one column. -/
def c3Stg2 : ModelMapping :=
  { name := "stg_orders", type := none, mart_type := none, source_table := none
    columns := [{ name := "order_id", data_type := some "bigint", description := some "pk",
                  quote := none, aliasName := none, expression := none, transformation := none }]
    description := none, expected_behavior := none }

/-- Mapping document holding only `c3Stg2`. -/
def c3MappingDoc2 : MappingDoc :=
  { staging_models := [c3Stg2], models := [] }

/-- Concrete marts entry for exercising the unit-test skip. -/
def c9Model : ModelMapping :=
  { name := "fct_sales", type := some "marts", mart_type := some "facts"
    source_table := none, columns := [], description := none, expected_behavior := none }

/-- Concrete mapping document holding only `c9Model`. -/
def c9Mdoc : MappingDoc :=
  { staging_models := [], models := [c9Model] }

/-- Concrete staging-only entry. -/
def c10Stg : ModelMapping :=
  { name := "stg_orders", type := some "staging", mart_type := none
    source_table := some "orders", columns := [], description := none
    expected_behavior := none }

/-- Concrete `models` entry with a different name. -/
def c10Model : ModelMapping :=
  { name := "dim_customers", type := some "marts", mart_type := some "dimensions"
    source_table := none, columns := [], description := none, expected_behavior := none }

/-- Concrete mapping document whose staging entry is absent from
`models`. -/
def c10Mdoc : MappingDoc :=
  { staging_models := [c10Stg], models := [c10Model] }

/-- Concrete parsed column with name `n`. -/
def c8Col (n : String) : ParsedColumn :=
  { name := n, type := "string", description := "", required := false
    primary_key := false, uniqueFlag := false, default_value := "" }

/-- Concrete table definition with a duplicated column name. -/
def c8Table : SchemaTable :=
  { schema_name := "public", table_name := "t", columns := [c8Col "id", c8Col "id"] }

/-! ### List helper lemmas -/

theorem updateFirst_cons_pos (p : α → Bool) (f : α → α) (x : α) (xs : List α)
    (h : p x = true) : updateFirst p f (x :: xs) = f x :: xs := by
  simp [updateFirst, h]

theorem updateFirst_cons_neg (p : α → Bool) (f : α → α) (x : α) (xs : List α)
    (h : p x = false) : updateFirst p f (x :: xs) = x :: updateFirst p f xs := by
  simp [updateFirst, h]

theorem updateFirst_append_neg (p : α → Bool) (f : α → α) (l₁ l₂ : List α)
    (h : ∀ x ∈ l₁, p x = false) :
    updateFirst p f (l₁ ++ l₂) = l₁ ++ updateFirst p f l₂ := by
  induction l₁ with
  | nil => simp
  | cons a l ih =>
    have ha : p a = false := h a (by simp)
    simp only [List.cons_append, updateFirst_cons_neg p f a _ ha]
    rw [ih (fun x hx => h x (by simp [hx]))]

theorem find?_append_cons_pos {p : α → Bool} {l₁ : List α} (l₂ : List α) {a : α}
    (h : ∀ x ∈ l₁, p x = false) (ha : p a = true) :
    (l₁ ++ a :: l₂).find? p = some a := by
  induction l₁ with
  | nil => simp [List.find?_cons, ha]
  | cons b l ih =>
    have hb : p b = false := h b (by simp)
    simp only [List.cons_append, List.find?_cons, hb]
    exact ih (fun x hx => h x (by simp [hx]))

theorem find?_decomp {p : α → Bool} {l : List α} {a : α} (h : l.find? p = some a) :
    ∃ l₁ l₂, l = l₁ ++ a :: l₂ ∧ (∀ x ∈ l₁, p x = false) ∧ p a = true := by
  induction l with
  | nil => simp at h
  | cons b l ih =>
    by_cases hb : p b = true
    · simp only [List.find?_cons, hb] at h
      simp only [Option.some.injEq] at h
      exact ⟨[], l, by simp [h], by simp, h ▸ hb⟩
    · have hb' : p b = false := by simp_all
      simp only [List.find?_cons, hb'] at h
      obtain ⟨l₁, l₂, hl, hnot, hpa⟩ := ih h
      refine ⟨b :: l₁, l₂, by simp [hl], ?_, hpa⟩
      intro x hx
      rcases List.mem_cons.mp hx with rfl | hx
      · exact hb'
      · exact hnot x hx

/-! ### Merge lemmas (claims C1 and C2) -/

theorem mergeTable_found {doc : SourceDoc} {schema : String} {td : SourceTable} {s₀ : SourceEntry}
    (h : doc.sources.find? (fun s => s.name == schema) = some s₀) :
    mergeTable doc schema td =
      { doc with
        sources := updateFirst (fun s => s.name == schema) (mergeEntryTables td) doc.sources } := by
  unfold mergeTable mergeEntryTables
  rw [h]

theorem mergeTable_notfound {doc : SourceDoc} {schema : String} {td : SourceTable}
    (h : doc.sources.find? (fun s => s.name == schema) = none) :
    mergeTable doc schema td =
      { doc with
        sources := doc.sources ++
          [{ name := schema
             description := "External tables in " ++ schema ++ " schema"
             tables := [td] }] } := by
  unfold mergeTable
  rw [h]
  simp

theorem mergeEntryTables_name (td : SourceTable) (s : SourceEntry) :
    (mergeEntryTables td s).name = s.name := rfl

theorem mergeEntryTables_idem (td : SourceTable) (s : SourceEntry) :
    mergeEntryTables td (mergeEntryTables td s) = mergeEntryTables td s := by
  unfold mergeEntryTables
  simp only [List.filter_append, List.filter_filter]
  simp

/-- Claim C1: merging the same table descriptor into the same sources
document twice yields a document identical to merging it once, and after
the merge the per-schema sources entry contains exactly one table entry
carrying the merged table's name (its fields those of the merged
descriptor), so no duplicate table entries appear. -/
theorem merge_idempotent (doc : SourceDoc) (schema : String) (td : SourceTable) :
    mergeTable (mergeTable doc schema td) schema td = mergeTable doc schema td ∧
    ∃ e, (mergeTable doc schema td).sources.find? (fun s => s.name == schema) = some e ∧
      e.tables.filter (fun t => t.name == td.name) = [td] := by
  cases h : doc.sources.find? (fun s => s.name == schema) with
  | none =>
    have hall : ∀ x ∈ doc.sources, (x.name == schema) = false := by
      intro x hx
      have := List.find?_eq_none.mp h x hx
      simpa using this
    have hsrc : (mergeTable doc schema td).sources =
        doc.sources ++
          [{ name := schema
             description := "External tables in " ++ schema ++ " schema"
             tables := [td] }] := by
      rw [mergeTable_notfound h]
    have hfind₁ : (mergeTable doc schema td).sources.find? (fun s => s.name == schema)
        = some { name := schema
                 description := "External tables in " ++ schema ++ " schema"
                 tables := [td] } := by
      rw [hsrc]
      exact find?_append_cons_pos [] hall (by simp)
    have key : updateFirst (fun s => s.name == schema) (mergeEntryTables td)
        (doc.sources ++
          [{ name := schema
             description := "External tables in " ++ schema ++ " schema"
             tables := [td] }]) =
        doc.sources ++
          [{ name := schema
             description := "External tables in " ++ schema ++ " schema"
             tables := [td] }] := by
      rw [updateFirst_append_neg _ _ _ _ hall,
        updateFirst_cons_pos (fun s => s.name == schema) (mergeEntryTables td) _ [] (by simp)]
      simp [mergeEntryTables]
    constructor
    · rw [mergeTable_found hfind₁, hsrc, key, ← hsrc]
    · exact ⟨_, hfind₁, by simp⟩
  | some s₀ =>
    obtain ⟨l₁, l₂, hl, hnot, hq⟩ := find?_decomp h
    have hupd : updateFirst (fun s => s.name == schema) (mergeEntryTables td) doc.sources
        = l₁ ++ mergeEntryTables td s₀ :: l₂ := by
      rw [hl, updateFirst_append_neg _ _ _ _ hnot,
        updateFirst_cons_pos (fun s => s.name == schema) (mergeEntryTables td) s₀ l₂ hq]
    have hsrc : (mergeTable doc schema td).sources = l₁ ++ mergeEntryTables td s₀ :: l₂ := by
      rw [mergeTable_found h]
      exact hupd
    have hq' : ((mergeEntryTables td s₀).name == schema) = true := by
      rw [mergeEntryTables_name]; exact hq
    have hfind₁ : (mergeTable doc schema td).sources.find? (fun s => s.name == schema)
        = some (mergeEntryTables td s₀) := by
      rw [hsrc]
      exact find?_append_cons_pos _ hnot hq'
    constructor
    · rw [mergeTable_found hfind₁, hsrc,
        updateFirst_append_neg _ _ _ _ hnot,
        updateFirst_cons_pos (fun s => s.name == schema) (mergeEntryTables td)
          (mergeEntryTables td s₀) l₂ hq', mergeEntryTables_idem, ← hsrc]
    · refine ⟨mergeEntryTables td s₀, hfind₁, ?_⟩
      unfold mergeEntryTables
      simp only [List.filter_append, List.filter_filter]
      simp

/-- Decomposition of a found-schema merge: the sources list splits around
the first entry named after the schema, and the merge rewrites exactly
that entry by `mergeEntryTables`. -/
theorem mergeTable_sources_found {doc : SourceDoc} {schema : String} {s₀ : SourceEntry}
    (td : SourceTable) (h : doc.sources.find? (fun s => s.name == schema) = some s₀) :
    ∃ l₁ l₂, doc.sources = l₁ ++ s₀ :: l₂ ∧ (∀ x ∈ l₁, (x.name == schema) = false) ∧
      (s₀.name == schema) = true ∧
      (mergeTable doc schema td).sources = l₁ ++ mergeEntryTables td s₀ :: l₂ := by
  obtain ⟨l₁, l₂, hl, hnot, hq⟩ := find?_decomp h
  refine ⟨l₁, l₂, hl, hnot, hq, ?_⟩
  rw [mergeTable_found h, hl]
  simp only []
  rw [updateFirst_append_neg _ _ _ _ hnot,
    updateFirst_cons_pos (fun s => s.name == schema) (mergeEntryTables td) s₀ l₂ hq]

/-- Claim C2: merging table B into a sources document that already has a
sources entry for the schema replaces only the table entries named like
B inside that entry: every sibling table with a different name keeps its
whole descriptor, B's descriptor is appended, and every other sources
entry (one not named after the schema) is preserved unchanged. -/
theorem merge_sibling_preservation (doc : SourceDoc) (schema : String) (tdB : SourceTable)
    (s₀ : SourceEntry)
    (hfind : doc.sources.find? (fun s => s.name == schema) = some s₀) :
    ∃ s₁, (mergeTable doc schema tdB).sources.find? (fun s => s.name == schema) = some s₁ ∧
      s₁.tables = s₀.tables.filter (fun t => !(t.name == tdB.name)) ++ [tdB] ∧
      (∀ tA ∈ s₀.tables, tA.name ≠ tdB.name → tA ∈ s₁.tables) ∧
      tdB ∈ s₁.tables ∧
      (∀ s ∈ doc.sources, (s.name == schema) = false →
        s ∈ (mergeTable doc schema tdB).sources) := by
  obtain ⟨l₁, l₂, hl, hnot, hq, hsrc⟩ := mergeTable_sources_found tdB hfind
  refine ⟨mergeEntryTables tdB s₀, ?_, rfl, ?_, ?_, ?_⟩
  · rw [hsrc]
    exact find?_append_cons_pos _ hnot (by rw [mergeEntryTables_name]; exact hq)
  · intro tA htA hne
    unfold mergeEntryTables
    simp only [List.mem_append]
    left
    rw [List.mem_filter]
    exact ⟨htA, by simp [hne]⟩
  · unfold mergeEntryTables
    simp
  · intro s hs hsname
    rw [hsrc]
    rw [hl] at hs
    rcases List.mem_append.mp hs with h₁ | h₂
    · exact List.mem_append.mpr (Or.inl h₁)
    · rcases List.mem_cons.mp h₂ with rfl | h₃
      · rw [hsname] at hq
        exact absurd hq (by simp)
      · exact List.mem_append.mpr (Or.inr (List.mem_cons.mpr (Or.inr h₃)))

/-- Witness for claim C2 at a concrete input: merging `orders` into a
document already holding `customers` preserves the sibling and adds the
new table. -/
theorem merge_sibling_preservation_witness :
    ∃ s₁, (mergeTable c2Doc "public" c2TableB).sources.find?
        (fun s => s.name == "public") = some s₁ ∧
      s₁.tables = c2EntryA.tables.filter
        (fun t => !(t.name == c2TableB.name)) ++ [c2TableB] ∧
      (∀ tA ∈ c2EntryA.tables, tA.name ≠ c2TableB.name → tA ∈ s₁.tables) ∧
      c2TableB ∈ s₁.tables ∧
      (∀ s ∈ c2Doc.sources, (s.name == "public") = false →
        s ∈ (mergeTable c2Doc "public" c2TableB).sources) :=
  merge_sibling_preservation c2Doc "public" c2TableB c2EntryA (by decide)

/-- Attaching a description never touches the `tests` key. -/
theorem applyDescription_tests (o : Option String) (d : ColumnDescriptor) :
    (applyDescription o d).tests = d.tests := by
  cases o with
  | none => rfl
  | some s =>
    simp only [applyDescription]
    split <;> rfl

/-- Attaching an expression never touches the `tests` key. -/
theorem applyExpression_tests (o : Option String) (d : ColumnDescriptor) :
    (applyExpression o d).tests = d.tests := by
  cases o with
  | none => rfl
  | some s =>
    simp only [applyExpression]
    split <;> rfl

/-- The `tests` key of a catalog-derived column depends only on the two
coerced flags (lines 163-177). -/
theorem colFromSchemaRow_tests (r : SchemaDefRow) :
    (colFromSchemaRow r).tests =
      (if coerceFlag r.is_primary_key false then some ["unique", "not_null"]
       else if coerceFlag r.is_nullable true = false then some ["not_null"]
       else none) := by
  unfold colFromSchemaRow
  by_cases hpk : coerceFlag r.is_primary_key false <;>
    by_cases hnl : coerceFlag r.is_nullable true <;>
      simp [hpk, hnl, applyDescription_tests, applyExpression_tests]

/-- Claim C4: a catalog column whose `is_primary_key` coerces to true
gets `tests: [unique, not_null]`; one whose `is_primary_key` coerces to
false and whose `is_nullable` coerces to false gets `tests: [not_null]`;
one with neither gets no `tests` key at all. -/
theorem test_derivation (r : SchemaDefRow) :
    (coerceFlag r.is_primary_key false = true →
      (colFromSchemaRow r).tests = some ["unique", "not_null"]) ∧
    (coerceFlag r.is_primary_key false = false → coerceFlag r.is_nullable true = false →
      (colFromSchemaRow r).tests = some ["not_null"]) ∧
    (coerceFlag r.is_primary_key false = false → coerceFlag r.is_nullable true = true →
      (colFromSchemaRow r).tests = none) := by
  refine ⟨?_, ?_, ?_⟩
  · intro h
    rw [colFromSchemaRow_tests]
    simp [h]
  · intro h1 h2
    rw [colFromSchemaRow_tests]
    simp [h1, h2]
  · intro h1 h2
    rw [colFromSchemaRow_tests]
    simp [h1, h2]

/-- Witness for claim C4 at a concrete input: a `"true"` primary-key
flag yields `[unique, not_null]`. -/
theorem test_derivation_witness :
    (colFromSchemaRow c4RowPk).tests = some ["unique", "not_null"] :=
  (test_derivation c4RowPk).1 (by decide)

/-- Claim C5 counterexample: a string other than the literals
`"true"`/`"false"` does not fall back to the documented default.  With
`is_nullable = "yes"` the claim predicts the default `true` (hence no
tests), but both coercions yield `false`, so the generated column gets
`tests: [not_null]`; and a non-boolean, non-string value such as the
integer 1 coerces by truthiness to `true` in the generator instead of
the claimed default `false`. -/
theorem boolean_coercion_cex :
    coerceFlag (some (.vStr "yes")) true = false ∧
    parse_boolean (.vStr "yes") true = false ∧
    coerceFlag (some (.vInt 1)) false = true ∧
    (colFromSchemaRow c5Row).tests = some ["not_null"] := by
  exact ⟨rfl, rfl, rfl, by decide⟩

/-- Claim C5 amended: native booleans pass through and an absent field
takes its documented default, but a present string coerces to
"lowercased string equals `true`" (so `"TRUE"` is true, `"FALSE"` is
false, and any other string is false regardless of the default), and a
present non-boolean non-string value is used by the generator under
Python truthiness while `SchemaReader`'s `parse_boolean` maps it to the
default. -/
theorem boolean_coercion_amended (d b : Bool) (s : String) (n : Int) :
    coerceFlag none d = d ∧
    coerceFlag (some (.vBool b)) d = b ∧
    coerceFlag (some (.vStr s)) d = (pyLower s == "true") ∧
    coerceFlag (some (.vStr "TRUE")) d = true ∧
    coerceFlag (some (.vStr "FALSE")) d = false ∧
    coerceFlag (some (.vInt n)) d = decide (n ≠ 0) ∧
    parse_boolean (.vBool b) d = b ∧
    parse_boolean (.vStr s) d = (pyLower s == "true") ∧
    parse_boolean (.vInt n) d = d := by
  refine ⟨rfl, rfl, rfl, ?_, ?_, ?_, rfl, rfl, rfl⟩
  · simp only [coerceFlag]
    decide
  · simp only [coerceFlag]
    decide
  · simp [coerceFlag, CellVal.truthy]

/-- Claim C3 counterexample: table `orders` has a matching
`staging_models` entry (so the claim says its columns are those of the
mapping document) and matching schema-definition rows, but because the
matching entry's column list is empty the generator falls back to the
catalog columns, which differ from the mapping entry's columns. -/
theorem column_precedence_cex :
    findStg c3MappingDoc.staging_models "orders" = some c3Stg ∧
    resolveColumns (some c3MappingDoc) (some [c3Row]) "public" "orders" =
      [colFromSchemaRow c3Row] ∧
    resolveColumns (some c3MappingDoc) (some [c3Row]) "public" "orders" ≠
      c3Stg.columns.map colFromMapping := by
  refine ⟨by decide, by decide, by decide⟩

/-- Claim C3 amended: whenever the matching `staging_models` entry has a
non-empty column list, the columns written into the sources document are
exactly that entry's columns (names, types and descriptions mapped
verbatim, quote/alias/expression passed through only when present), the
schema-definitions catalog is never consulted, and the two sources are
never merged column-by-column; an entry with an empty column list
instead falls through to the catalog columns ("first populated source
wins"). -/
theorem column_precedence_amended (m : MappingDoc) (sdf : Option (List SchemaDefRow))
    (schema table_name : String) (stg : ModelMapping)
    (hfind : findStg m.staging_models table_name = some stg)
    (hcols : stg.columns ≠ []) :
    resolveColumns (some m) sdf schema table_name = stg.columns.map colFromMapping := by
  unfold resolveColumns
  dsimp only []
  rw [hfind]
  simp [List.isEmpty_iff, hcols]

/-- Witness for the amended claim C3 at a concrete input: with one
mapping column present, the catalog row is ignored. -/
theorem column_precedence_amended_witness :
    resolveColumns (some c3MappingDoc2) (some [c3Row]) "public" "orders" =
      c3Stg2.columns.map colFromMapping :=
  column_precedence_amended c3MappingDoc2 (some [c3Row]) "public" "orders" c3Stg2
    (by decide) (by decide)

/-! ### Line lemmas (claim C6) -/

theorem splitlinesAux_no_newline (l : List Char) (cur : List Char)
    (hl : '\n' ∉ l) (hne : cur.reverse ++ l ≠ []) :
    splitlinesAux l cur = [String.mk (cur.reverse ++ l)] := by
  induction l generalizing cur with
  | nil =>
    simp only [List.append_nil] at hne ⊢
    have hcur : cur ≠ [] := by
      intro h
      exact hne (by simp [h])
    simp [splitlinesAux, List.isEmpty_iff, hcur]
  | cons c cs ih =>
    have hc : c ≠ '\n' := by
      intro h
      exact hl (by simp [h])
    have hcs : '\n' ∉ cs := fun h => hl (by simp [h])
    simp only [splitlinesAux, if_neg hc]
    rw [ih (c :: cur) hcs (by simp)]
    simp

theorem splitlinesAux_append_newline (l : List Char) (rest cur : List Char)
    (hl : '\n' ∉ l) :
    splitlinesAux (l ++ '\n' :: rest) cur =
      String.mk (cur.reverse ++ l) :: splitlinesAux rest [] := by
  induction l generalizing cur with
  | nil => simp [splitlinesAux]
  | cons c cs ih =>
    have hc : c ≠ '\n' := by
      intro h
      exact hl (by simp [h])
    have hcs : '\n' ∉ cs := fun h => hl (by simp [h])
    simp only [List.cons_append, splitlinesAux, if_neg hc, List.append_eq]
    rw [ih (c :: cur) hcs]
    simp

theorem mem_splitlinesAux_no_newline (s : List Char) (cur : List Char)
    (hcur : '\n' ∉ cur) : ∀ x ∈ splitlinesAux s cur, '\n' ∉ x.data := by
  induction s generalizing cur with
  | nil =>
    intro x hx
    simp only [splitlinesAux] at hx
    split at hx
    · simp at hx
    · simp only [List.mem_singleton] at hx
      subst hx
      simp [hcur]
  | cons c cs ih =>
    intro x hx
    simp only [splitlinesAux] at hx
    by_cases hc : c = '\n'
    · rw [if_pos hc] at hx
      rcases List.mem_cons.mp hx with rfl | hx
      · simp [hcur]
      · exact ih [] (by simp) x hx
    · rw [if_neg hc] at hx
      refine ih (c :: cur) ?_ x hx
      intro hmem
      rcases List.mem_cons.mp hmem with h | h
      · exact hc h.symm
      · exact hcur h

theorem joinNL_append (A B : List String) (hA : A ≠ []) (hB : B ≠ []) :
    joinNL (A ++ B) = joinNL A ++ "\n" ++ joinNL B := by
  induction A with
  | nil => exact absurd rfl hA
  | cons a A ih =>
    cases A with
    | nil =>
      cases B with
      | nil => exact absurd rfl hB
      | cons b B => simp [joinNL]
    | cons a' A' =>
      have : joinNL (a :: a' :: A' ++ B) = a ++ "\n" ++ joinNL (a' :: A' ++ B) := by
        simp [joinNL]
      rw [List.cons_append] at this ⊢
      rw [this, ih (by simp)]
      simp [joinNL, String.append_assoc]

theorem pySplitlines_joinNL (A : List String) (hA : A ≠ [])
    (hfree : ∀ a ∈ A, '\n' ∉ a.data) (hne : ∀ a ∈ A, a ≠ "") :
    pySplitlines (joinNL A) = A := by
  induction A with
  | nil => exact absurd rfl hA
  | cons a A ih =>
    cases A with
    | nil =>
      have ha : '\n' ∉ a.data := hfree a (by simp)
      have ha' : a ≠ "" := hne a (by simp)
      have hdata : a.data ≠ [] := by
        intro h
        exact ha' (by cases a with | mk d => simp_all)
      unfold pySplitlines joinNL
      rw [splitlinesAux_no_newline a.data [] ha (by simpa using hdata)]
      simp
    | cons a' A' =>
      have ha : '\n' ∉ a.data := hfree a (by simp)
      have hjoin : joinNL (a :: a' :: A') = a ++ "\n" ++ joinNL (a' :: A') := by
        simp [joinNL]
      unfold pySplitlines
      rw [hjoin]
      have hdata : (a ++ "\n" ++ joinNL (a' :: A')).data
          = a.data ++ '\n' :: (joinNL (a' :: A')).data := by
        rw [String.data_append, String.data_append]
        simp
      rw [hdata, splitlinesAux_append_newline a.data _ [] ha]
      have := ih (by simp)
        (fun x hx => hfree x (by simp [hx]))
        (fun x hx => hne x (by simp [hx]))
      unfold pySplitlines at this
      rw [this]
      simp

/-- Claim C6: the model file written by the body generator is
comment-only.  Whenever the checklist text and the SQL body each consist
of at least one line, the written content's lines are exactly the
checklist lines followed by the SQL lines, every one prefixed with the
SQL comment marker, so the file contains no uncommented line. -/
theorem comment_only_model_file (tester_comment sql_code : String)
    (hc : pySplitlines tester_comment ≠ [])
    (hs : pySplitlines sql_code ≠ []) :
    pySplitlines (commentedFile tester_comment sql_code) =
      (pySplitlines tester_comment ++ pySplitlines sql_code).map
        (fun line => "-- " ++ line) ∧
    ∀ line ∈ pySplitlines (commentedFile tester_comment sql_code),
      ∃ rest, line = "-- " ++ rest := by
  have key : pySplitlines (commentedFile tester_comment sql_code) =
      (pySplitlines tester_comment ++ pySplitlines sql_code).map
        (fun line => "-- " ++ line) := by
    unfold commentedFile
    rw [← joinNL_append _ _ (by simpa using hc) (by simpa using hs), ← List.map_append]
    apply pySplitlines_joinNL
    · intro hnil
      rw [List.map_eq_nil_iff, List.append_eq_nil] at hnil
      exact hc hnil.1
    · intro x hx
      rcases List.mem_map.mp hx with ⟨y, hy, rfl⟩
      rw [String.data_append]
      intro hmem
      rcases List.mem_append.mp hmem with h1 | h2
      · simp at h1
      · have : '\n' ∉ y.data := by
          rcases List.mem_append.mp hy with hl | hr
          · exact mem_splitlinesAux_no_newline _ [] (by simp) y hl
          · exact mem_splitlinesAux_no_newline _ [] (by simp) y hr
        exact this h2
    · intro x hx
      rcases List.mem_map.mp hx with ⟨y, hy, rfl⟩
      intro h
      have : ("-- " ++ y).data = [] := by rw [h]
      rw [String.data_append] at this
      simp at this
  refine ⟨key, ?_⟩
  intro line hline
  rw [key] at hline
  rcases List.mem_map.mp hline with ⟨y, hy, rfl⟩
  exact ⟨y, rfl⟩

/-- Witness for claim C6 at a concrete input: a two-line checklist and a
one-line SQL body produce a fully commented three-line file. -/
theorem comment_only_model_file_witness :
    pySplitlines (commentedFile "check joins\nreview filters" "select 1") =
      (pySplitlines "check joins\nreview filters" ++ pySplitlines "select 1").map
        (fun line => "-- " ++ line) ∧
    ∀ line ∈ pySplitlines (commentedFile "check joins\nreview filters" "select 1"),
      ∃ rest, line = "-- " ++ rest :=
  comment_only_model_file "check joins\nreview filters" "select 1"
    (by decide) (by decide)

/-! ### Grouping lemmas (claims C7 and C10) -/

theorem map_fst_updateFirst (p : α × β → Bool) (f : α × β → α × β)
    (hf : ∀ x, (f x).1 = x.1) (l : List (α × β)) :
    (updateFirst p f l).map Prod.fst = l.map Prod.fst := by
  induction l with
  | nil => rfl
  | cons x xs ih =>
    by_cases hx : p x
    · simp [updateFirst, hx, hf]
    · simp [updateFirst, hx, ih]

/-- One `insertGroup` step preserves the grouping invariant: every group
is the filter of the models seen so far by its key, every seen model has
a group, and the keys are distinct. -/
theorem insertGroup_spec (gs : List (String × List ModelMapping))
    (seen : List ModelMapping) (m : ModelMapping)
    (h1 : ∀ kg ∈ gs, kg.2 = seen.filter (fun x => groupKey x == kg.1))
    (h2 : ∀ x ∈ seen, ∃ kg ∈ gs, kg.1 = groupKey x)
    (h3 : (gs.map Prod.fst).Nodup) :
    (∀ kg ∈ insertGroup gs (groupKey m) m,
      kg.2 = (seen ++ [m]).filter (fun x => groupKey x == kg.1)) ∧
    (∀ x ∈ seen ++ [m], ∃ kg ∈ insertGroup gs (groupKey m) m, kg.1 = groupKey x) ∧
    ((insertGroup gs (groupKey m) m).map Prod.fst).Nodup := by
  by_cases hany : gs.any (fun g => g.1 == groupKey m)
  · obtain ⟨kg₀, hfind⟩ : ∃ kg₀, gs.find? (fun g => g.1 == groupKey m) = some kg₀ := by
      have := List.any_eq_true.mp hany
      obtain ⟨x, hx, hpx⟩ := this
      rcases hopt : gs.find? (fun g => g.1 == groupKey m) with _ | kg₀
      · rw [List.find?_eq_none] at hopt
        exact absurd hpx (hopt x hx)
      · exact ⟨kg₀, hopt⟩
    obtain ⟨l₁, l₂, hl, hnot, hp₀⟩ := find?_decomp hfind
    have hkey₀ : kg₀.1 = groupKey m := by simpa using hp₀
    have hgs' : insertGroup gs (groupKey m) m = l₁ ++ (kg₀.1, kg₀.2 ++ [m]) :: l₂ := by
      unfold insertGroup
      rw [if_pos hany, hl, updateFirst_append_neg _ _ _ _ hnot,
        updateFirst_cons_pos (fun g => g.1 == groupKey m)
          (fun g => (g.1, g.2 ++ [m])) kg₀ l₂ hp₀]
    have hkeys : (insertGroup gs (groupKey m) m).map Prod.fst = gs.map Prod.fst := by
      unfold insertGroup
      rw [if_pos hany]
      exact map_fst_updateFirst (fun g => g.1 == groupKey m)
        (fun g => (g.1, g.2 ++ [m])) (fun x => rfl) gs
    have hnotin₂ : ∀ kg ∈ l₂, (kg.1 == groupKey m) = false := by
      intro kg hkg
      have hmap : (gs.map Prod.fst).Nodup := h3
      rw [hl] at hmap
      simp only [List.map_append, List.map_cons, List.nodup_append] at hmap
      have : kg₀.1 ∉ l₂.map Prod.fst := by
        have := hmap.2.1
        simp only [List.nodup_cons] at this
        exact this.1
      by_contra hcontra
      simp only [Bool.not_eq_false, beq_iff_eq] at hcontra
      exact this (by
        rw [hkey₀, ← hcontra]
        exact List.mem_map_of_mem Prod.fst hkg)
    refine ⟨?_, ?_, ?_⟩
    · intro kg hkg
      rw [hgs'] at hkg
      rcases List.mem_append.mp hkg with hin₁ | hmid
      · have hfalse : (kg.1 == groupKey m) = false := hnot kg hin₁
        have : (groupKey m == kg.1) = false := by
          simp only [beq_eq_false_iff_ne] at hfalse ⊢
          exact fun h => hfalse h.symm
        have hmem : kg ∈ gs := by
          rw [hl]
          exact List.mem_append.mpr (Or.inl hin₁)
        rw [List.filter_append, h1 kg hmem]
        simp [List.filter_cons, this]
      · rcases List.mem_cons.mp hmid with rfl | hin₂
        · have hself : (groupKey m == kg₀.1) = true := by
            simp [hkey₀]
          have hmem : kg₀ ∈ gs := by
            rw [hl]
            simp
          rw [List.filter_append, h1 kg₀ hmem]
          simp [List.filter_cons, hself, hkey₀]
        · have hfalse : (kg.1 == groupKey m) = false := hnotin₂ kg hin₂
          have : (groupKey m == kg.1) = false := by
            simp only [beq_eq_false_iff_ne] at hfalse ⊢
            exact fun h => hfalse h.symm
          have hmem : kg ∈ gs := by
            rw [hl]
            exact List.mem_append.mpr (Or.inr (List.mem_cons.mpr (Or.inr hin₂)))
          rw [List.filter_append, h1 kg hmem]
          simp [List.filter_cons, this]
    · intro x hx
      rcases List.mem_append.mp hx with hseen | hm
      · obtain ⟨kg, hkg, hkgeq⟩ := h2 x hseen
        have : kg.1 ∈ (insertGroup gs (groupKey m) m).map Prod.fst := by
          rw [hkeys]
          exact List.mem_map_of_mem Prod.fst hkg
        obtain ⟨kg', hkg', hkg'eq⟩ := List.mem_map.mp this
        exact ⟨kg', hkg', by rw [hkg'eq, hkgeq]⟩
      · have hxm : x = m := by simpa using hm
        subst hxm
        refine ⟨(kg₀.1, kg₀.2 ++ [x]), ?_, hkey₀⟩
        rw [hgs']
        simp
    · rw [hkeys]
      exact h3
  · have hnone : ∀ kg ∈ gs, (kg.1 == groupKey m) = false := by
      intro kg hkg
      have := List.any_eq_false.mp (Bool.eq_false_iff.mpr hany) kg hkg
      simpa using this
    have hgs' : insertGroup gs (groupKey m) m = gs ++ [(groupKey m, [m])] := by
      unfold insertGroup
      rw [if_neg hany]
    have hseenk : seen.filter (fun x => groupKey x == groupKey m) = [] := by
      rw [List.filter_eq_nil_iff]
      intro x hx
      obtain ⟨kg, hkg, hkgeq⟩ := h2 x hx
      have := hnone kg hkg
      simp only [beq_eq_false_iff_ne] at this
      simp only [Bool.not_eq_true, beq_eq_false_iff_ne]
      rw [← hkgeq]
      exact this
    refine ⟨?_, ?_, ?_⟩
    · intro kg hkg
      rw [hgs'] at hkg
      rcases List.mem_append.mp hkg with hin | hnew
      · have hfalse : (kg.1 == groupKey m) = false := hnone kg hin
        have : (groupKey m == kg.1) = false := by
          simp only [beq_eq_false_iff_ne] at hfalse ⊢
          exact fun h => hfalse h.symm
        rw [List.filter_append, h1 kg hin]
        simp [List.filter_cons, this]
      · have hkgeq : kg = (groupKey m, [m]) := by simpa using hnew
        subst hkgeq
        rw [List.filter_append]
        simp [List.filter_cons, hseenk]
    · intro x hx
      rcases List.mem_append.mp hx with hseen | hm
      · obtain ⟨kg, hkg, hkgeq⟩ := h2 x hseen
        exact ⟨kg, by rw [hgs']; exact List.mem_append.mpr (Or.inl hkg), hkgeq⟩
      · have hxm : x = m := by simpa using hm
        subst hxm
        exact ⟨(groupKey x, [x]), by rw [hgs']; simp, rfl⟩
    · rw [hgs']
      simp only [List.map_append, List.map_cons, List.map_nil]
      rw [List.nodup_append]
      refine ⟨h3, by simp, ?_⟩
      intro k hk hmem
      obtain ⟨kg, hkg, hkgeq⟩ := List.mem_map.mp hk
      have hne := hnone kg hkg
      simp only [beq_eq_false_iff_ne] at hne
      have hkgm : k = groupKey m := by simpa using hmem
      exact hne (by rw [hkgeq, hkgm])

/-- The grouping invariant carried over the whole fold of
`groupModels`. -/
theorem groupModels_inv (ms : List ModelMapping) :
    ∀ (seen : List ModelMapping) (gs : List (String × List ModelMapping)),
      (∀ kg ∈ gs, kg.2 = seen.filter (fun x => groupKey x == kg.1)) →
      (∀ x ∈ seen, ∃ kg ∈ gs, kg.1 = groupKey x) →
      (gs.map Prod.fst).Nodup →
      (∀ kg ∈ ms.foldl (fun gs m => insertGroup gs (groupKey m) m) gs,
        kg.2 = (seen ++ ms).filter (fun x => groupKey x == kg.1)) ∧
      (∀ x ∈ seen ++ ms, ∃ kg ∈ ms.foldl (fun gs m => insertGroup gs (groupKey m) m) gs,
        kg.1 = groupKey x) ∧
      ((ms.foldl (fun gs m => insertGroup gs (groupKey m) m) gs).map Prod.fst).Nodup := by
  induction ms with
  | nil =>
    intro seen gs h1 h2 h3
    simp only [List.foldl_nil, List.append_nil]
    exact ⟨h1, h2, h3⟩
  | cons m ms ih =>
    intro seen gs h1 h2 h3
    obtain ⟨s1, s2, s3⟩ := insertGroup_spec gs seen m h1 h2 h3
    have hrest := ih (seen ++ [m]) (insertGroup gs (groupKey m) m) s1 s2 s3
    rw [List.append_assoc, List.singleton_append] at hrest
    simp only [List.foldl_cons]
    exact hrest

/-- The groups of `groupModels` are exactly the key-filters of the input
list, the keys are distinct, and every model lands in its key's
group. -/
theorem groupModels_spec (ms : List ModelMapping) :
    (∀ kg ∈ groupModels ms, kg.2 = ms.filter (fun x => groupKey x == kg.1)) ∧
    (∀ m ∈ ms, ∃ kg ∈ groupModels ms, kg.1 = groupKey m) ∧
    ((groupModels ms).map Prod.fst).Nodup := by
  have h := groupModels_inv ms [] [] (by simp) (by simp) (by simp)
  rw [List.nil_append] at h
  exact h

/-- Claim C7: schema-document grouping is deterministic.  Every entry
with type `marts` and mart_type `facts` has grouping key
`models/marts/facts` (hence lands in the single schema document at
`models/marts/facts/schema.yml`), every entry with type `staging` has
key `models/staging`, group keys are pairwise distinct (one document per
group), each group lists exactly the input entries with its key in their
original relative order, every entry appears in its key's group, and
each group is emitted as `<key>/schema.yml`. -/
theorem grouping_determinism (ms : List ModelMapping) :
    (∀ m ∈ ms, m.type = some "marts" → m.mart_type = some "facts" →
      groupKey m = "models/marts/facts" ∧
      schemaPath (groupKey m) =
        { dir := ["models", "marts", "facts"], stem := "schema", ext := "yml" }) ∧
    (∀ m ∈ ms, m.type = some "staging" →
      groupKey m = "models/staging" ∧
      schemaPath (groupKey m) =
        { dir := ["models", "staging"], stem := "schema", ext := "yml" }) ∧
    (∀ kg ∈ groupModels ms, kg.2 = ms.filter (fun x => groupKey x == kg.1)) ∧
    ((groupModels ms).map Prod.fst).Nodup ∧
    (∀ m ∈ ms, ∃ kg ∈ groupModels ms, kg.1 = groupKey m ∧ m ∈ kg.2) ∧
    (∀ kg ∈ groupModels ms, (schemaPath kg.1, schemaDocOf kg.2) ∈ schemaFilesList ms) := by
  obtain ⟨hfilter, hmem, hnodup⟩ := groupModels_spec ms
  refine ⟨?_, ?_, hfilter, hnodup, ?_, ?_⟩
  · intro m hm htype hmart
    have hkey : groupKey m = "models/marts/facts" := by
      unfold groupKey
      rw [htype, hmart]
      rfl
    exact ⟨hkey, by rw [hkey]; rfl⟩
  · intro m hm htype
    have hkey : groupKey m = "models/staging" := by
      unfold groupKey
      rw [htype]
      rfl
    exact ⟨hkey, by rw [hkey]; rfl⟩
  · intro m hm
    obtain ⟨kg, hkg, hkey⟩ := hmem m hm
    refine ⟨kg, hkg, hkey, ?_⟩
    rw [hfilter kg hkg]
    rw [List.mem_filter]
    exact ⟨hm, by simp [hkey]⟩
  · intro kg hkg
    unfold schemaFilesList
    exact List.mem_map_of_mem (fun kg => (schemaPath kg.1, schemaDocOf kg.2)) hkg

/-! ### File-system lemmas (claims C9 and C10) -/

theorem fsGet_updateFirst_set (fs : FS) (q p : GenPath) (c : GenFile) (h : q ≠ p) :
    fsGet (updateFirst (fun e => e.1 == q) (fun e => (e.1, c)) fs) p = fsGet fs p := by
  induction fs with
  | nil => rfl
  | cons e fs ih =>
    by_cases he : (e.1 == q) = true
    · rw [updateFirst_cons_pos (fun e => e.1 == q) (fun e => (e.1, c)) e fs he]
      have heq : e.1 = q := by simpa using he
      have hne : (e.1 == p) = false := by
        simp only [beq_eq_false_iff_ne, heq]
        exact h
      unfold fsGet
      rw [List.find?_cons, List.find?_cons]
      simp only [hne]
    · have he' : (e.1 == q) = false := by simpa using he
      rw [updateFirst_cons_neg (fun e => e.1 == q) (fun e => (e.1, c)) e fs he']
      by_cases hp : (e.1 == p) = true
      · unfold fsGet
        rw [List.find?_cons, List.find?_cons]
        simp only [hp]
      · have hp' : (e.1 == p) = false := by simpa using hp
        unfold fsGet
        rw [List.find?_cons, List.find?_cons]
        simp only [hp']
        exact ih

theorem fsGet_fsWrite_ne (fs : FS) (q p : GenPath) (c : GenFile) (h : q ≠ p) :
    fsGet (fsWrite fs q c) p = fsGet fs p := by
  unfold fsWrite
  split
  · exact fsGet_updateFirst_set fs q p c h
  · unfold fsGet
    rw [List.find?_append]
    have : ((q, c).1 == p) = false := by
      simp only [beq_eq_false_iff_ne]
      exact h
    cases hf : fs.find? (fun e => e.1 == p) with
    | none => simp [List.find?_cons, this]
    | some e => simp

theorem fsGet_fsWrite_self (fs : FS) (q : GenPath) (c : GenFile) :
    fsGet (fsWrite fs q c) q = some c := by
  unfold fsWrite
  split
  · rename_i hany
    induction fs with
    | nil => simp at hany
    | cons e fs ih =>
      by_cases he : (e.1 == q) = true
      · rw [updateFirst_cons_pos (fun e => e.1 == q) (fun e => (e.1, c)) e fs he]
        unfold fsGet
        rw [List.find?_cons]
        simp only [he]
        rfl
      · have he' : (e.1 == q) = false := by simpa using he
        rw [updateFirst_cons_neg (fun e => e.1 == q) (fun e => (e.1, c)) e fs he']
        unfold fsGet
        rw [List.find?_cons]
        simp only [he']
        apply ih
        simp only [List.any_cons, he'] at hany
        simpa using hany
  · unfold fsGet
    rw [List.find?_append]
    rename_i hany
    have hnone : fs.find? (fun e => e.1 == q) = none := by
      rw [List.find?_eq_none]
      intro x hx
      have := List.any_eq_false.mp (Bool.eq_false_iff.mpr hany) x hx
      simpa using this
    rw [hnone]
    simp [List.find?_cons]

theorem fsExists_fsWrite_self (fs : FS) (q : GenPath) (c : GenFile) :
    fsExists (fsWrite fs q c) q = true := by
  unfold fsExists
  rw [fsGet_fsWrite_self]
  rfl

theorem fsExists_fsWrite_mono (fs : FS) (q p : GenPath) (c : GenFile)
    (h : fsExists fs p = true) : fsExists (fsWrite fs q c) p = true := by
  by_cases hqp : q = p
  · subst hqp
    exact fsExists_fsWrite_self fs q c
  · unfold fsExists
    rw [fsGet_fsWrite_ne fs q p c hqp]
    exact h

/-- Existence of a file is preserved by any fold whose step only writes
files. -/
theorem fsExists_foldl_mono {σ : Type} (step : FS → σ → FS)
    (hstep : ∀ fs x p, fsExists fs p = true → fsExists (step fs x) p = true)
    (l : List σ) : ∀ fs p, fsExists fs p = true →
      fsExists (l.foldl step fs) p = true := by
  induction l with
  | nil => intro fs p h; simpa using h
  | cons x l ih =>
    intro fs p h
    rw [List.foldl_cons]
    exact ih (step fs x) p (hstep fs x p h)

theorem bodyStep_mono (llmSql llmCheck logRender : ModelMapping → String)
    (fs : FS) (m : ModelMapping) (p : GenPath) (h : fsExists fs p = true) :
    fsExists (bodyStep llmSql llmCheck logRender fs m) p = true := by
  unfold bodyStep
  exact fsExists_fsWrite_mono _ _ _ _ (fsExists_fsWrite_mono _ _ _ _ h)

theorem processRow_mono (mdoc : Option MappingDoc) (sdf : Option (List SchemaDefRow))
    (fs : FS) (row : CatalogRow) (p : GenPath) (h : fsExists fs p = true) :
    fsExists (processRow mdoc sdf fs row) p = true := by
  unfold processRow
  exact fsExists_fsWrite_mono _ _ _ _ h

theorem testStep_mono (llmTest : ModelMapping → GenFile → String)
    (fs : FS) (m : ModelMapping) (p : GenPath) (h : fsExists fs p = true) :
    fsExists (testStep llmTest fs m) p = true := by
  unfold testStep
  split
  · exact h
  · split
    · exact h
    · exact fsExists_fsWrite_mono _ _ _ _ h

theorem schemaPhase_mono (fs : FS) (mdoc : MappingDoc) (p : GenPath)
    (h : fsExists fs p = true) : fsExists (schemaPhase fs mdoc) p = true := by
  unfold schemaPhase
  exact fsExists_foldl_mono _ (fun fs x q hq => fsExists_fsWrite_mono _ _ _ _ hq) _ fs p h

theorem testPhase_mono (llmTest : ModelMapping → GenFile → String) (fs : FS)
    (mdoc : MappingDoc) (p : GenPath) (h : fsExists fs p = true) :
    fsExists (testPhase llmTest fs mdoc) p = true := by
  unfold testPhase
  exact fsExists_foldl_mono _ (fun fs x q hq => testStep_mono llmTest fs x q hq) _ fs p h

/-- The body generator writes the model file of every entry of the list
it processes. -/
theorem fsExists_bodyFold (llmSql llmCheck logRender : ModelMapping → String)
    (l : List ModelMapping) (m : ModelMapping) (hm : m ∈ l) :
    ∀ fs, fsExists (l.foldl (bodyStep llmSql llmCheck logRender) fs) (bodyModelPath m) = true := by
  induction l with
  | nil => exact absurd hm (by simp)
  | cons a l ih =>
    intro fs
    rw [List.foldl_cons]
    rcases List.mem_cons.mp hm with rfl | hm'
    · apply fsExists_foldl_mono _ (fun fs x q hq => bodyStep_mono _ _ _ fs x q hq)
      unfold bodyStep
      exact fsExists_fsWrite_self _ _ _
    · exact ih hm' _

theorem bodyPhase_exists (llmSql llmCheck logRender : ModelMapping → String)
    (fs : FS) (mdoc : MappingDoc) (m : ModelMapping)
    (hm : m ∈ mdoc.staging_models ++ mdoc.models) :
    fsExists (bodyPhase llmSql llmCheck logRender fs mdoc) (bodyModelPath m) = true := by
  unfold bodyPhase
  exact fsExists_bodyFold llmSql llmCheck logRender _ m hm fs

/-- A fold of steps that each leave path `p` alone leaves `p` alone. -/
theorem fsGet_foldl_preserve {σ : Type} (step : FS → σ → FS) (l : List σ) (p : GenPath)
    (hstep : ∀ fs x, x ∈ l → fsGet (step fs x) p = fsGet fs p) :
    ∀ fs, fsGet (l.foldl step fs) p = fsGet fs p := by
  induction l with
  | nil => intro fs; rfl
  | cons x l ih =>
    intro fs
    rw [List.foldl_cons, ih (fun fs y hy => hstep fs y (by simp [hy]))]
    exact hstep fs x (by simp)

/-- Every model-body path sits two directory levels deep. -/
theorem bodyModelPath_dir_length (m : ModelMapping) : (bodyModelPath m).dir.length = 2 := by
  by_cases h : (m.type.getD "staging") == "marts" <;> simp [bodyModelPath, h]

/-- `generate_external_tables` writes only `sources.yml` files: any path
with a different extension is untouched. -/
theorem fsGet_sourcesPhase (mdoc : Option MappingDoc) (sdf : Option (List SchemaDefRow))
    (rows : List CatalogRow) (p : GenPath) (h : p.ext ≠ "yml") :
    ∀ fs, fsGet (sourcesPhase mdoc sdf fs rows) p = fsGet fs p := by
  intro fs
  unfold sourcesPhase
  apply fsGet_foldl_preserve
  intro fs row hrow
  unfold processRow
  apply fsGet_fsWrite_ne
  intro hq
  exact h (by rw [← hq])

/-- `generate_models_from_mapping` writes only into `logs/` and into
two-level model directories: any other path is untouched. -/
theorem fsGet_bodyPhase (llmSql llmCheck logRender : ModelMapping → String)
    (mdoc : MappingDoc) (p : GenPath) (hlog : p.dir ≠ ["logs"])
    (hlen2 : p.dir.length ≠ 2) :
    ∀ fs, fsGet (bodyPhase llmSql llmCheck logRender fs mdoc) p = fsGet fs p := by
  intro fs
  unfold bodyPhase
  apply fsGet_foldl_preserve
  intro fs m hm
  unfold bodyStep
  rw [fsGet_fsWrite_ne, fsGet_fsWrite_ne]
  · intro hq
    exact hlog (by rw [← hq]; rfl)
  · intro hq
    exact hlen2 (by rw [← hq]; exact bodyModelPath_dir_length m)

/-- `generate_schema_files` writes only `schema.yml` files: any path
with a different extension is untouched. -/
theorem fsGet_schemaPhase (mdoc : MappingDoc) (p : GenPath) (h : p.ext ≠ "yml") :
    ∀ fs, fsGet (schemaPhase fs mdoc) p = fsGet fs p := by
  intro fs
  unfold schemaPhase
  apply fsGet_foldl_preserve
  intro fs pd hpd
  apply fsGet_fsWrite_ne
  obtain ⟨kg, hkg, hkgeq⟩ := List.mem_map.mp hpd
  intro hq
  apply h
  rw [← hq, ← hkgeq]
  rfl

/-- After directory creation, source generation, body generation and
schema generation, no `.sql` file sits three directory levels deep. -/
theorem preTestState_get_none (llmSql llmCheck logRender : ModelMapping → String)
    (mdoc : MappingDoc) (catalog : List CatalogRow) (sdf : Option (List SchemaDefRow))
    (p : GenPath) (hext : p.ext = "sql") (hlen : p.dir.length = 3) :
    fsGet (preTestState llmSql llmCheck logRender mdoc catalog sdf) p = none := by
  have hyml : p.ext ≠ "yml" := by
    rw [hext]
    decide
  have hlog : p.dir ≠ ["logs"] := by
    intro h
    rw [h] at hlen
    exact absurd hlen (by decide)
  have hlen2 : p.dir.length ≠ 2 := by
    rw [hlen]
    decide
  unfold preTestState
  rw [fsGet_schemaPhase mdoc p hyml, fsGet_bodyPhase llmSql llmCheck logRender mdoc p hlog hlen2,
    fsGet_sourcesPhase (some mdoc) sdf catalog p hyml]
  rfl

/-- Appending to a fixed string on the left is injective. -/
theorem str_append_left_cancel (s a b : String) (h : s ++ a = s ++ b) : a = b := by
  have hd : (s ++ a).data = (s ++ b).data := by rw [h]
  rw [String.data_append, String.data_append] at hd
  have hcancel := List.append_cancel_left hd
  cases a
  cases b
  exact congrArg String.mk (by simpa using hcancel)

/-- The probe path of a marts entry spelled out. -/
theorem testLookupPath_of_marts (m : ModelMapping) (ht : m.type = some "marts") :
    testLookupPath m =
      { dir := ["models", "marts", m.mart_type.getD "dimensions"],
        stem := m.name, ext := "sql" } := by
  unfold testLookupPath
  rw [ht]
  rfl

/-- No phase before unit-test generation writes into `tests/`. -/
theorem preTestState_tests_none (llmSql llmCheck logRender : ModelMapping → String)
    (mdoc : MappingDoc) (catalog : List CatalogRow) (sdf : Option (List SchemaDefRow))
    (nm : String) :
    fsGet (preTestState llmSql llmCheck logRender mdoc catalog sdf)
      { dir := ["tests"], stem := nm, ext := "sql" } = none := by
  unfold preTestState
  rw [fsGet_schemaPhase mdoc _ (by show ("sql" : String) ≠ "yml"; decide),
    fsGet_bodyPhase llmSql llmCheck logRender mdoc _
      (by show (["tests"] : List String) ≠ ["logs"]; decide)
      (by show (["tests"] : List String).length ≠ 2; decide),
    fsGet_sourcesPhase (some mdoc) sdf catalog _ (by show ("sql" : String) ≠ "yml"; decide)]
  rfl

/-- The unit-test fold never creates `tests/test_<nm>.sql` when every
entry named `nm` is a marts entry whose probe misses, and the probes of
the marts entries keep missing throughout (the fold writes only into
`tests/`). -/
theorem testFold_no_write (llmTest : ModelMapping → GenFile → String) (nm : String) :
    ∀ (l : List ModelMapping) (fs : FS),
      (∀ m2 ∈ l, m2.name = nm → m2.type = some "marts") →
      fsGet fs { dir := ["tests"], stem := "test_" ++ nm, ext := "sql" } = none →
      (∀ m2 ∈ l, m2.name = nm → fsGet fs (testLookupPath m2) = none) →
      fsGet (l.foldl (testStep llmTest) fs)
        { dir := ["tests"], stem := "test_" ++ nm, ext := "sql" } = none := by
  intro l
  induction l with
  | nil =>
    intro fs _ hfile _
    simpa using hfile
  | cons m2 l ih =>
    intro fs hall hfile hlooks
    rw [List.foldl_cons]
    have hkey : ∀ (fs' : FS), fs' = testStep llmTest fs m2 →
        fsGet fs' { dir := ["tests"], stem := "test_" ++ nm, ext := "sql" } = none ∧
        (∀ m3 ∈ l, m3.name = nm → fsGet fs' (testLookupPath m3) = none) := by
      intro fs' hfs'
      unfold testStep at hfs'
      by_cases hname : (m2.name == "") = true
      · rw [if_pos hname] at hfs'
        subst hfs'
        exact ⟨hfile, fun m3 hm3 hn3 => hlooks m3 (by simp [hm3]) hn3⟩
      · rw [if_neg hname] at hfs'
        cases hget : fsGet fs (testLookupPath m2) with
        | none =>
          rw [hget] at hfs'
          subst hfs'
          exact ⟨hfile, fun m3 hm3 hn3 => hlooks m3 (by simp [hm3]) hn3⟩
        | some content =>
          rw [hget] at hfs'
          have hne : m2.name ≠ nm := by
            intro heq
            rw [hlooks m2 (by simp) heq] at hget
            exact Option.noConfusion hget
          subst hfs'
          constructor
          · rw [fsGet_fsWrite_ne]
            · exact hfile
            · intro hq
              have : "test_" ++ m2.name = "test_" ++ nm := congrArg GenPath.stem hq
              exact hne (str_append_left_cancel "test_" m2.name nm this)
          · intro m3 hm3 hn3
            have hm3marts : m3.type = some "marts" := hall m3 (by simp [hm3]) hn3
            rw [fsGet_fsWrite_ne]
            · exact hlooks m3 (by simp [hm3]) hn3
            · intro hq
              have hlen : ([("tests" : String)]).length =
                  (testLookupPath m3).dir.length := by
                rw [← hq]
              rw [testLookupPath_of_marts m3 hm3marts] at hlen
              simp at hlen
    obtain ⟨ha, hb⟩ := hkey (testStep llmTest fs m2) rfl
    exact ih (testStep llmTest fs m2) (fun m3 hm3 hn3 => hall m3 (by simp [hm3]) hn3) ha hb

/-- Claim C9: for a `models` entry of type `marts`, the body generator
writes the model to `models/marts/<name>.sql` while the unit-test
generator probes `models/marts/<mart_type>/<name>.sql`; in a full run
that probe finds nothing (no phase ever writes a three-level `.sql`
path), so the unit-test step for the entry leaves the project tree — in
particular the `tests/` directory — completely unchanged, while the
two-level model file does exist.  Consequently, when every `models`
entry sharing the name is a marts entry, the finished run contains no
`tests/test_<name>.sql` at all. -/
theorem marts_unit_test_skip (llmSql llmCheck logRender : ModelMapping → String)
    (llmTest : ModelMapping → GenFile → String)
    (mdoc : MappingDoc) (catalog : List CatalogRow) (sdf : Option (List SchemaDefRow))
    (m : ModelMapping) (hm : m ∈ mdoc.models) (ht : m.type = some "marts") :
    bodyModelPath m = { dir := ["models", "marts"], stem := m.name, ext := "sql" } ∧
    testLookupPath m =
      { dir := ["models", "marts", m.mart_type.getD "dimensions"],
        stem := m.name, ext := "sql" } ∧
    fsGet (preTestState llmSql llmCheck logRender mdoc catalog sdf) (testLookupPath m)
      = none ∧
    testStep llmTest (preTestState llmSql llmCheck logRender mdoc catalog sdf) m =
      preTestState llmSql llmCheck logRender mdoc catalog sdf ∧
    fsExists (preTestState llmSql llmCheck logRender mdoc catalog sdf) (bodyModelPath m)
      = true ∧
    ((∀ m2 ∈ mdoc.models, m2.name = m.name → m2.type = some "marts") →
      fsGet (fullRun llmSql llmCheck logRender llmTest mdoc catalog sdf)
        { dir := ["tests"], stem := "test_" ++ m.name, ext := "sql" } = none) := by
  have hbody : bodyModelPath m =
      { dir := ["models", "marts"], stem := m.name, ext := "sql" } := by
    unfold bodyModelPath
    rw [ht]
    rfl
  have hlook : testLookupPath m =
      { dir := ["models", "marts", m.mart_type.getD "dimensions"],
        stem := m.name, ext := "sql" } := by
    unfold testLookupPath
    rw [ht]
    rfl
  have hnone : fsGet (preTestState llmSql llmCheck logRender mdoc catalog sdf)
      (testLookupPath m) = none := by
    apply preTestState_get_none
    · rw [hlook]
    · rw [hlook]
      rfl
  refine ⟨hbody, hlook, hnone, ?_, ?_, ?_⟩
  · unfold testStep
    split
    · rfl
    · rw [hnone]
  · unfold preTestState
    apply schemaPhase_mono
    apply bodyPhase_exists
    exact List.mem_append.mpr (Or.inr hm)
  · intro hall
    unfold fullRun testPhase
    apply testFold_no_write llmTest m.name mdoc.models _ hall
    · exact preTestState_tests_none llmSql llmCheck logRender mdoc catalog sdf _
    · intro m2 hm2 hn2
      apply preTestState_get_none
      · rw [testLookupPath_of_marts m2 (hall m2 hm2 hn2)]
      · rw [testLookupPath_of_marts m2 (hall m2 hm2 hn2)]
        rfl

/-- Witness for claim C9 at a concrete input. -/
theorem marts_unit_test_skip_witness :
    bodyModelPath c9Model =
      { dir := ["models", "marts"], stem := c9Model.name, ext := "sql" } ∧
    testLookupPath c9Model =
      { dir := ["models", "marts", c9Model.mart_type.getD "dimensions"],
        stem := c9Model.name, ext := "sql" } ∧
    fsGet (preTestState (fun _ => "") (fun _ => "") (fun _ => "") c9Mdoc [] none)
      (testLookupPath c9Model) = none ∧
    testStep (fun _ _ => "") (preTestState (fun _ => "") (fun _ => "") (fun _ => "")
      c9Mdoc [] none) c9Model =
      preTestState (fun _ => "") (fun _ => "") (fun _ => "") c9Mdoc [] none ∧
    fsExists (preTestState (fun _ => "") (fun _ => "") (fun _ => "") c9Mdoc [] none)
      (bodyModelPath c9Model) = true ∧
    ((∀ m2 ∈ c9Mdoc.models, m2.name = c9Model.name → m2.type = some "marts") →
      fsGet (fullRun (fun _ => "") (fun _ => "") (fun _ => "") (fun _ _ => "")
        c9Mdoc [] none)
        { dir := ["tests"], stem := "test_" ++ c9Model.name, ext := "sql" } = none) :=
  marts_unit_test_skip (fun _ => "") (fun _ => "") (fun _ => "") (fun _ _ => "")
    c9Mdoc [] none c9Model (by decide) (by decide)

/-- Claim C10: schema generation iterates only the mapping document's
`models` list, so an entry appearing only under `staging_models` (no
`models` entry shares its name) is absent from every generated schema
document, even though the body generator (which processes
`staging_models ++ models`) does write its model file. -/
theorem staging_only_schema_omission (llmSql llmCheck logRender : ModelMapping → String)
    (llmTest : ModelMapping → GenFile → String)
    (mdoc : MappingDoc) (catalog : List CatalogRow) (sdf : Option (List SchemaDefRow))
    (e : ModelMapping)
    (h1 : e ∈ mdoc.staging_models)
    (h2 : ∀ m ∈ mdoc.models, m.name ≠ e.name) :
    (∀ pd ∈ schemaFilesList mdoc.models, ∀ md ∈ pd.2.models, md.name ≠ e.name) ∧
    fsExists (fullRun llmSql llmCheck logRender llmTest mdoc catalog sdf)
      (bodyModelPath e) = true := by
  constructor
  · intro pd hpd md hmd
    obtain ⟨kg, hkg, hkgeq⟩ := List.mem_map.mp hpd
    obtain ⟨hfilter, _, _⟩ := groupModels_spec mdoc.models
    rw [← hkgeq] at hmd
    have hmd' : md ∈ kg.2.map genModelSchema := hmd
    obtain ⟨m', hm', hm'eq⟩ := List.mem_map.mp hmd'
    have hm'mem : m' ∈ mdoc.models := by
      rw [hfilter kg hkg] at hm'
      exact (List.mem_filter.mp hm').1
    rw [← hm'eq]
    exact h2 m' hm'mem
  · unfold fullRun
    apply testPhase_mono
    unfold preTestState
    apply schemaPhase_mono
    apply bodyPhase_exists
    exact List.mem_append.mpr (Or.inl h1)

/-- Witness for claim C10 at a concrete input. -/
theorem staging_only_schema_omission_witness :
    (∀ pd ∈ schemaFilesList c10Mdoc.models, ∀ md ∈ pd.2.models, md.name ≠ c10Stg.name) ∧
    fsExists (fullRun (fun _ => "") (fun _ => "") (fun _ => "") (fun _ _ => "")
      c10Mdoc [] none) (bodyModelPath c10Stg) = true :=
  staging_only_schema_omission (fun _ => "") (fun _ => "") (fun _ => "") (fun _ _ => "")
    c10Mdoc [] none c10Stg (by decide) (by decide)

/-! ### Validation lemmas (claim C8) -/

/-- A table with a repeated column name gets a duplicate report naming
that column. -/
theorem validateSchema_dup_mem (defs : List SchemaTable) (t : SchemaTable)
    (ht : t ∈ defs) (n : String) (hn : n ∈ t.columns.map (fun c => c.name))
    (hcount : 1 < (t.columns.map (fun c => c.name)).count n) :
    ∃ ds, Issue.dupColumns (tkey t) ds ∈ validateSchema defs ∧ n ∈ ds := by
  have hmem : n ∈ (t.columns.map (fun c => c.name)).dedup.filter
      (fun x => 1 < (t.columns.map (fun c => c.name)).count x) := by
    rw [List.mem_filter]
    exact ⟨List.mem_dedup.mpr hn, by simpa using hcount⟩
  refine ⟨_, ?_, hmem⟩
  unfold validateSchema
  apply List.mem_append.mpr
  left
  apply List.mem_filterMap.mpr
  refine ⟨t, ht, ?_⟩
  simp only []
  rw [if_pos]
  exact List.ne_nil_of_mem hmem

/-- A column with an empty name gets a missing-name report. -/
theorem validateSchema_missing_name (defs : List SchemaTable) (t : SchemaTable)
    (ht : t ∈ defs) (c : ParsedColumn) (hc : c ∈ t.columns) (hname : c.name = "") :
    Issue.missingName (tkey t) ∈ validateSchema defs := by
  unfold validateSchema
  apply List.mem_append.mpr
  right
  apply List.mem_flatMap.mpr
  refine ⟨t, ht, ?_⟩
  apply List.mem_flatMap.mpr
  refine ⟨c, hc, ?_⟩
  simp [hname]

/-- A column with an empty type gets a missing-type report. -/
theorem validateSchema_missing_type (defs : List SchemaTable) (t : SchemaTable)
    (ht : t ∈ defs) (c : ParsedColumn) (hc : c ∈ t.columns) (htype : c.type = "") :
    Issue.missingType (tkey t) c.name ∈ validateSchema defs := by
  unfold validateSchema
  apply List.mem_append.mpr
  right
  apply List.mem_flatMap.mpr
  refine ⟨t, ht, ?_⟩
  apply List.mem_flatMap.mpr
  refine ⟨c, hc, ?_⟩
  simp [htype]

/-- Claim C8: schema validation is advisory.  `validate_schema` is a
total function into a list of issues (never an exception), it flags
duplicated column names, empty/missing column names and empty/missing
column types, and the generated schema documents do not depend on the
schema definitions being validated at all — a mapping document paired
with definitions full of duplicates yields exactly the same documents as
one paired with pristine definitions, so issues never block
generation. -/
theorem validation_advisory (defs defsOther : List SchemaTable) (ms : List ModelMapping) :
    ((generate_schema_files defs ms).1 = (generate_schema_files defsOther ms).1) ∧
    ((generate_schema_files defs ms).1 = schemaFilesList ms) ∧
    ((generate_schema_files defs ms).2 = validateSchema defs) ∧
    (∀ t ∈ defs, ∀ n ∈ t.columns.map (fun c => c.name),
      1 < (t.columns.map (fun c => c.name)).count n →
      ∃ ds, Issue.dupColumns (tkey t) ds ∈ (generate_schema_files defs ms).2 ∧ n ∈ ds) ∧
    (∀ t ∈ defs, ∀ c ∈ t.columns, c.name = "" →
      Issue.missingName (tkey t) ∈ (generate_schema_files defs ms).2) ∧
    (∀ t ∈ defs, ∀ c ∈ t.columns, c.type = "" →
      Issue.missingType (tkey t) c.name ∈ (generate_schema_files defs ms).2) := by
  refine ⟨rfl, rfl, rfl, ?_, ?_, ?_⟩
  · intro t ht n hn hcount
    exact validateSchema_dup_mem defs t ht n hn hcount
  · intro t ht c hc hname
    exact validateSchema_missing_name defs t ht c hc hname
  · intro t ht c hc htype
    exact validateSchema_missing_type defs t ht c hc htype

/-- Witness for claim C8 at a concrete input: the duplicate is reported
and the generated documents are untouched by it. -/
theorem validation_advisory_witness :
    ((generate_schema_files [c8Table] []).1 = (generate_schema_files [] []).1) ∧
    ((generate_schema_files [c8Table] []).1 = schemaFilesList []) ∧
    (∃ ds, Issue.dupColumns (tkey c8Table) ds ∈ (generate_schema_files [c8Table] []).2 ∧
      "id" ∈ ds) :=
  ⟨(validation_advisory [c8Table] [] []).1,
   (validation_advisory [c8Table] [] []).2.1,
   (validation_advisory [c8Table] [] []).2.2.2.1 c8Table (by decide) "id" (by decide)
     (by decide)⟩
